import Mathlib

/-!
# TTL key-value store over a relational table (Go package `gorm`, file `gorm/gorm.go`)

The store keeps `Session` rows `(k, v, e)` in one table through a `*gorm.DB`
handle.  The Go methods `Storage.Get`, `Storage.Set`, `Storage.Delete`,
`Storage.Reset` and `Storage.gc` are embedded below as pure functions that
pass the store state explicitly.

Modelling choices.

* A Go `string` / `[]byte` is a finite sequence of bytes: `List UInt8`.  The
  conversions `string(val)` and `[]byte(sess.V)` copy the bytes and are the
  identity here.  A `nil` slice result is `none`.
* `time.Time` is the number of nanoseconds since the Unix epoch and
  `time.Duration` a number of nanoseconds, both as `Int`.  `Time.Unix` is the
  floor of the division by `10^9` (Go keeps a time as whole seconds plus a
  non-negative nanosecond part and `Unix` returns the seconds).  Every reading
  of `time.Now()` is an explicit argument of the operation that reads it.
* The `*gorm.DB` handle is the table's rows, the handle's `AllowGlobalUpdate`
  setting and the list of calls made on the handle so far.  The handle's
  methods follow the behaviour of `gorm.io/gorm` on a reachable, healthy
  database: `First` reports `gorm.ErrRecordNotFound` when no row matches,
  `Create` is a plain `INSERT` that the primary key on column `k` rejects when
  a row with that key exists, a `Delete` with a `WHERE` clause removes the
  matching rows, and a `Delete` without any condition is refused with
  `gorm.ErrMissingWhereClause` unless `AllowGlobalUpdate` is set.
  Connectivity and I/O faults are not modelled.
* The reaper goroutine started by `New` runs `gcTicker`, which calls `gc(t)`
  once per tick.  One sweep is the function `Storage.gc`; the sweeps that run
  between two foreground calls are `Storage.gcTicker` applied to the list of
  their wake times, which may be any list.  The `done` channel and `Close`
  are not modelled.
-/

namespace Gorm

/-- Go byte sequence, the value domain of both `string` and `[]byte`. -/
abbrev Bytes := List UInt8

/-- Row of the table: `type Session struct { K string; V string; E int64 }`,
with `K` tagged `primaryKey` and `E` tagged `default:0`. -/
structure Session where
  K : Bytes
  V : Bytes
  E : Int
deriving DecidableEq, Repr

/-- Error values that occur in `gorm.go` or that the handle reports.
`sqlErrNoRows` is `database/sql`'s `sql.ErrNoRows`, the value `Get` compares
with; `gormErrRecordNotFound` is `gorm.ErrRecordNotFound`;
`gormErrMissingWhereClause` is `gorm.ErrMissingWhereClause`;
`primaryKeyViolation` is the database's rejection of an `INSERT` whose
primary key is already present.  The four are pairwise distinct values. -/
inductive GoError where
  | sqlErrNoRows
  | gormErrRecordNotFound
  | gormErrMissingWhereClause
  | primaryKeyViolation
deriving DecidableEq, Repr

/-- Calls that `gorm.go` makes on the handle after construction, one
constructor per call site. -/
inductive Call where
  /-- Call `db.Where("k = ?", key).First(&sess)` in `Get`. -/
  | whereKFirst (key : Bytes)
  /-- Call `db.Create(&Session{K, V, E})` in `Set`. -/
  | create (row : Session)
  /-- Call `db.Unscoped().Where("k = ?", key).Delete(&Session{})` in `Delete`. -/
  | whereKDelete (key : Bytes)
  /-- Call `db.Unscoped().Delete(&Session{})` in `Reset`. -/
  | delete
  /-- Call `db.Unscoped().Where("e <= ? AND e != 0", unix).Delete(&Session{})` in `gc`. -/
  | whereExpiredDelete (unix : Int)
deriving DecidableEq, Repr

/-- State behind a `*gorm.DB` handle: the rows of the table, the handle's
`AllowGlobalUpdate` setting (false unless the caller who built the handle set
it) and the calls made on the handle, oldest first. -/
structure DB where
  rows : List Session
  AllowGlobalUpdate : Bool
  calls : List Call
deriving DecidableEq, Repr

/-- The primary key on `k`: no two rows of the table share a key. -/
def DB.WellFormed (db : DB) : Prop := (db.rows.map Session.K).Nodup

instance (db : DB) : Decidable db.WellFormed := by
  unfold DB.WellFormed; infer_instance

/-- Seconds since the Unix epoch of a time given in nanoseconds: `t.Unix()`. -/
def Unix (t : Int) : Int := t / 1000000000

/-- Time `t` moved by the duration `d`: `t.Add(d)`. -/
def Add (t d : Int) : Int := t + d

/-- Handle call `Where("k = ?", key).First(&sess)`: `SELECT` the row with
`k = key` (ordered by primary key, limit 1).  When no row matches the error is
`gorm.ErrRecordNotFound`.  Under the primary key at most one row matches. -/
def DB.whereKFirst (db : DB) (key : Bytes) : DB × Except GoError Session :=
  let db1 : DB := { db with calls := db.calls ++ [Call.whereKFirst key] }
  match db.rows.find? (fun r => decide (r.K = key)) with
  | some r => (db1, Except.ok r)
  | none => (db1, Except.error GoError.gormErrRecordNotFound)

/-- Handle call `Create(&row)`: a plain `INSERT`.  The primary key on `k`
rejects it when a row with the same key is present; the table is then left
as it was. -/
def DB.Create (db : DB) (row : Session) : DB × Option GoError :=
  let db1 : DB := { db with calls := db.calls ++ [Call.create row] }
  if db.rows.any (fun r => decide (r.K = row.K)) then
    (db1, some GoError.primaryKeyViolation)
  else
    ({ db1 with rows := db.rows ++ [row] }, none)

/-- Handle call `Unscoped().Where("k = ?", key).Delete(&Session{})`: remove
every row with `k = key`. -/
def DB.whereKDelete (db : DB) (key : Bytes) : DB × Option GoError :=
  ({ db with rows := db.rows.filter (fun r => !decide (r.K = key)),
             calls := db.calls ++ [Call.whereKDelete key] }, none)

/-- Handle call `Unscoped().Delete(&Session{})`: a delete with no condition
(the zero `Session` carries no primary key).  The handle refuses it with
`gorm.ErrMissingWhereClause` and runs nothing unless `AllowGlobalUpdate` is
set, in which case every row is removed. -/
def DB.Delete (db : DB) : DB × Option GoError :=
  let db1 : DB := { db with calls := db.calls ++ [Call.delete] }
  if db.AllowGlobalUpdate then
    ({ db1 with rows := [] }, none)
  else
    (db1, some GoError.gormErrMissingWhereClause)

/-- Handle call `Unscoped().Where("e <= ? AND e != 0", unix).Delete(&Session{})`:
remove every row whose `e` satisfies the condition. -/
def DB.whereExpiredDelete (db : DB) (unix : Int) : DB × Option GoError :=
  ({ db with rows := db.rows.filter (fun r => !(decide (r.E ≤ unix) && decide (r.E ≠ 0))),
             calls := db.calls ++ [Call.whereExpiredDelete unix] }, none)

/-- Store handle: `type Storage struct { db *gorm.DB; gcInterval time.Duration; done chan struct{} }`
without the channel. -/
structure Storage where
  db : DB
  gcInterval : Int
deriving DecidableEq, Repr

/-- Method `func (s *Storage) Get(key string) ([]byte, error)`; `now` is the
reading of `time.Now()` in the expiry test. -/
def Storage.Get (s : Storage) (key : Bytes) (now : Int) :
    Storage × (Option Bytes × Option GoError) :=
  if key.length ≤ 0 then
    (s, (none, none))
  else
    match s.db.whereKFirst key with
    | (db1, Except.error err) =>
      if err = GoError.sqlErrNoRows then
        ({ s with db := db1 }, (none, none))
      else
        ({ s with db := db1 }, (none, some err))
    | (db1, Except.ok sess) =>
      if sess.E ≠ 0 ∧ sess.E ≤ Unix now then
        ({ s with db := db1 }, (none, none))
      else
        ({ s with db := db1 }, (some sess.V, none))

/-- Local `expSeconds` of `Set`: zero unless `exp != 0`, then
`time.Now().Add(exp).Unix()`. -/
def expSeconds (exp now : Int) : Int :=
  if exp ≠ 0 then Unix (Add now exp) else 0

/-- Method `func (s *Storage) Set(key string, val []byte, exp time.Duration) error`;
`now` is the reading of `time.Now()`. -/
def Storage.Set (s : Storage) (key val : Bytes) (exp now : Int) :
    Storage × Option GoError :=
  if key.length ≤ 0 ∨ val.length ≤ 0 then
    (s, none)
  else
    match s.db.Create { K := key, V := val, E := expSeconds exp now } with
    | (db1, err) => ({ s with db := db1 }, err)

/-- Method `func (s *Storage) Delete(key string) error`. -/
def Storage.Delete (s : Storage) (key : Bytes) : Storage × Option GoError :=
  if key.length ≤ 0 then
    (s, none)
  else
    match s.db.whereKDelete key with
    | (db1, err) => ({ s with db := db1 }, err)

/-- Method `func (s *Storage) Reset() error`. -/
def Storage.Reset (s : Storage) : Storage × Option GoError :=
  match s.db.Delete with
  | (db1, err) => ({ s with db := db1 }, err)

/-- Method `func (s *Storage) gc(t time.Time)`; the handle's error is dropped. -/
def Storage.gc (s : Storage) (t : Int) : Storage :=
  { s with db := (s.db.whereExpiredDelete (Unix t)).1 }

/-- Loop of `func (s *Storage) gcTicker()`: one call `s.gc(t)` for each tick
`t` received from the ticker, in the order received; `ticks` are the wake
times received before the loop is stopped. -/
def Storage.gcTicker (s : Storage) (ticks : List Int) : Storage :=
  ticks.foldl Storage.gc s

/-- Store over a table with the given rows, a handle with the default
`AllowGlobalUpdate = false`, no call made yet and a ten second sweep interval. -/
def storeOf (rows : List Session) : Storage :=
  { db := { rows := rows, AllowGlobalUpdate := false, calls := [] },
    gcInterval := 10000000000 }

/-! ## Shared lemmas about the handle and the operations -/

theorem length_le_zero_iff (b : Bytes) : b.length ≤ 0 ↔ b = [] := by
  cases b <;> simp

theorem find_none_of_absent (rows : List Session) (key : Bytes)
    (h : ∀ r ∈ rows, r.K ≠ key) :
    rows.find? (fun r => decide (r.K = key)) = none := by
  rw [List.find?_eq_none]
  intro r hr
  simpa using h r hr

theorem any_false_of_absent (rows : List Session) (key : Bytes)
    (h : ∀ r ∈ rows, r.K ≠ key) :
    rows.any (fun r => decide (r.K = key)) = false := by
  rw [List.any_eq_false]
  intro r hr
  simpa using h r hr

theorem find_append_fresh (rows : List Session) (row : Session)
    (h : ∀ r ∈ rows, r.K ≠ row.K) :
    (rows ++ [row]).find? (fun r => decide (r.K = row.K)) = some row := by
  rw [List.find?_append, find_none_of_absent rows row.K h]
  simp

theorem Unix_mono {a b : Int} (h : a ≤ b) : Unix a ≤ Unix b := by
  unfold Unix
  omega

/-- The timestamp is the floor of the time in seconds, also before the epoch. -/
theorem Unix_floor (t : Int) :
    Unix t * 1000000000 ≤ t ∧ t < (Unix t + 1) * 1000000000 := by
  unfold Unix
  omega

/-- Set of a non-empty key and value on a table without a row for the key:
the row is appended and no error is returned. -/
theorem Set_of_absent (s : Storage) (key val : Bytes) (exp now : Int)
    (hk : key ≠ []) (hv : val ≠ []) (h : ∀ r ∈ s.db.rows, r.K ≠ key) :
    s.Set key val exp now =
      ({ s with db := { s.db with
            rows := s.db.rows ++ [{ K := key, V := val, E := expSeconds exp now }],
            calls := s.db.calls ++ [Call.create { K := key, V := val, E := expSeconds exp now }] } },
       none) := by
  have hk0 : ¬ key.length ≤ 0 := by rw [length_le_zero_iff]; exact hk
  have hv0 : ¬ val.length ≤ 0 := by rw [length_le_zero_iff]; exact hv
  simp only [Storage.Set, DB.Create, hk0, hv0, or_self, if_false,
    any_false_of_absent s.db.rows key h]
  simp

/-- Set of a non-empty key and value on a table that holds a row for the key:
the insert is rejected, the rows stay and the rejection is returned. -/
theorem Set_of_present (s : Storage) (key val : Bytes) (exp now : Int)
    (hk : key ≠ []) (hv : val ≠ []) (h : ∃ r ∈ s.db.rows, r.K = key) :
    s.Set key val exp now =
      ({ s with db := { s.db with
            calls := s.db.calls ++ [Call.create { K := key, V := val, E := expSeconds exp now }] } },
       some GoError.primaryKeyViolation) := by
  have hk0 : ¬ key.length ≤ 0 := by rw [length_le_zero_iff]; exact hk
  have hv0 : ¬ val.length ≤ 0 := by rw [length_le_zero_iff]; exact hv
  have hany : s.db.rows.any (fun r => decide (r.K = key)) = true := by
    rw [List.any_eq_true]
    obtain ⟨r, hr, hrk⟩ := h
    exact ⟨r, hr, by simpa using hrk⟩
  simp only [Storage.Set, DB.Create, hk0, hv0, or_self, if_false, hany]
  simp

/-- Get of a non-empty key whose lookup finds `row`. -/
theorem Get_of_found (s : Storage) (key : Bytes) (now : Int) (row : Session)
    (hk : key ≠ []) (h : s.db.rows.find? (fun r => decide (r.K = key)) = some row) :
    s.Get key now =
      ({ s with db := { s.db with calls := s.db.calls ++ [Call.whereKFirst key] } },
       if row.E ≠ 0 ∧ row.E ≤ Unix now then (none, none) else (some row.V, none)) := by
  have hk0 : ¬ key.length ≤ 0 := by rw [length_le_zero_iff]; exact hk
  simp only [Storage.Get, DB.whereKFirst, hk0, if_false, h]
  split <;> rfl

/-- Get of a non-empty key whose lookup finds no row. -/
theorem Get_of_absent (s : Storage) (key : Bytes) (now : Int)
    (hk : key ≠ []) (h : ∀ r ∈ s.db.rows, r.K ≠ key) :
    s.Get key now =
      ({ s with db := { s.db with calls := s.db.calls ++ [Call.whereKFirst key] } },
       (none, some GoError.gormErrRecordNotFound)) := by
  have hk0 : ¬ key.length ≤ 0 := by rw [length_le_zero_iff]; exact hk
  simp only [Storage.Get, DB.whereKFirst, hk0, if_false,
    find_none_of_absent s.db.rows key h]
  simp

theorem found_of_whereKFirst (db : DB) (key : Bytes) (row : Session)
    (h : (db.whereKFirst key).2 = Except.ok row) :
    db.rows.find? (fun r => decide (r.K = key)) = some row := by
  unfold DB.whereKFirst at h
  cases hf : db.rows.find? (fun r => decide (r.K = key)) with
  | none => simp [hf] at h
  | some r => simp [hf] at h; rw [h]

/-- Get of a non-empty key whose lookup finds nothing. -/
theorem Get_of_find_none (s : Storage) (key : Bytes) (now : Int) (hk : key ≠ [])
    (h : s.db.rows.find? (fun r => decide (r.K = key)) = none) :
    (s.Get key now).2 = (none, some GoError.gormErrRecordNotFound) := by
  have hk0 : ¬ key.length ≤ 0 := by rw [length_le_zero_iff]; exact hk
  simp only [Storage.Get, DB.whereKFirst, hk0, if_false, h]
  simp

/-- A Set of a non-empty key and value that returns no error found no row
with that key. -/
theorem absent_of_Set_no_error (s : Storage) (key val : Bytes) (exp now : Int)
    (hk : key ≠ []) (hv : val ≠ []) (h : (s.Set key val exp now).2 = none) :
    ∀ r ∈ s.db.rows, r.K ≠ key := by
  intro r hr hrk
  rw [Set_of_present s key val exp now hk hv ⟨r, hr, hrk⟩] at h
  simp at h

/-- Round trip on a table without a row for the key. -/
theorem Set_Get_of_absent (s : Storage) (K V : Bytes) (now later : Int)
    (hK : K ≠ []) (hV : V ≠ []) (habs : ∀ r ∈ s.db.rows, r.K ≠ K) :
    (s.Set K V 0 now).2 = none ∧
    ((s.Set K V 0 now).1.Get K later).2 = (some V, none) := by
  rw [Set_of_absent s K V 0 now hK hV habs]
  refine ⟨rfl, ?_⟩
  rw [Get_of_found _ K later { K := K, V := V, E := expSeconds 0 now } hK
    (find_append_fresh s.db.rows { K := K, V := V, E := expSeconds 0 now } habs)]
  simp [expSeconds]

/-- Rows after one sweep: the rows from before that do not satisfy the
sweep condition. -/
theorem gc_mem_iff (s : Storage) (t : Int) (r : Session) :
    r ∈ (s.gc t).db.rows ↔ (r ∈ s.db.rows ∧ ¬ (r.E ≠ 0 ∧ r.E ≤ Unix t)) := by
  simp only [Storage.gc, DB.whereExpiredDelete, List.mem_filter]
  constructor
  · rintro ⟨hr, hc⟩
    refine ⟨hr, ?_⟩
    rintro ⟨h0, hle⟩
    simp [h0, hle] at hc
  · rintro ⟨hr, hc⟩
    refine ⟨hr, ?_⟩
    by_cases h0 : r.E = 0
    · simp [h0]
    · have : ¬ r.E ≤ Unix t := fun hle => hc ⟨h0, hle⟩
      simp [this]

/-- Sweeps only remove rows: the rows after are a sublist of the rows before. -/
theorem gcTicker_sublist (s : Storage) (ticks : List Int) :
    (s.gcTicker ticks).db.rows.Sublist s.db.rows := by
  induction ticks generalizing s with
  | nil => exact List.Sublist.refl _
  | cons w ws ih =>
    have h1 : ((s.gc w).gcTicker ws).db.rows.Sublist (s.gc w).db.rows := ih (s.gc w)
    have h2 : (s.gc w).db.rows.Sublist s.db.rows := List.filter_sublist _
    exact h1.trans h2

/-- A row that no sweep of the list finds expired is still in the table. -/
theorem gcTicker_mem_of_alive (s : Storage) (ticks : List Int) (r : Session)
    (hr : r ∈ s.db.rows) (h : ∀ w ∈ ticks, ¬ (r.E ≠ 0 ∧ r.E ≤ Unix w)) :
    r ∈ (s.gcTicker ticks).db.rows := by
  induction ticks generalizing s with
  | nil => exact hr
  | cons w ws ih =>
    exact ih (s.gc w) ((gc_mem_iff s w r).2 ⟨hr, h w (List.mem_cons_self w ws)⟩)
      (fun v hv => h v (List.mem_cons_of_mem w hv))

/-- Get of a key whose only possible row in the table is an expired one:
no value; and no error when the row is there. -/
theorem Get_of_only_expired (st : Storage) (K : Bytes) (now : Int) (row : Session)
    (hK : K ≠ []) (honly : ∀ r ∈ st.db.rows, r.K = K → r = row)
    (hdead : row.E ≠ 0 ∧ row.E ≤ Unix now) :
    (st.Get K now).2.1 = none ∧
    ((∃ r ∈ st.db.rows, r.K = K) → (st.Get K now).2 = (none, none)) := by
  cases hf : st.db.rows.find? (fun r => decide (r.K = K)) with
  | none =>
    rw [Get_of_find_none st K now hK hf]
    refine ⟨rfl, ?_⟩
    rintro ⟨r, hr, hrk⟩
    rw [List.find?_eq_none] at hf
    exact absurd (by simpa using hrk) (hf r hr)
  | some r =>
    have hrk : r.K = K := by simpa using List.find?_some hf
    have hrow : r = row := honly r (List.mem_of_find?_eq_some hf) hrk
    rw [Get_of_found st K now r hK hf, hrow, if_pos hdead]
    exact ⟨rfl, fun _ => rfl⟩

/-- Set of a non-empty key and value on a table with at most one row for the
key leaves exactly one row for the key. -/
theorem Set_one_row_of_le_one (st : Storage) (K V : Bytes) (exp now : Int)
    (hK : K ≠ []) (hV : V ≠ [])
    (hle : (st.db.rows.filter (fun r => decide (r.K = K))).length ≤ 1) :
    ((st.Set K V exp now).1.db.rows.filter (fun r => decide (r.K = K))).length = 1 := by
  by_cases hex : ∃ r ∈ st.db.rows, r.K = K
  · rw [Set_of_present st K V exp now hK hV hex]
    obtain ⟨r, hr, hrk⟩ := hex
    have hmem : r ∈ st.db.rows.filter (fun r => decide (r.K = K)) := by
      rw [List.mem_filter]
      exact ⟨hr, by simpa using hrk⟩
    have hpos : 0 < (st.db.rows.filter (fun r => decide (r.K = K))).length :=
      List.length_pos_of_mem hmem
    show (st.db.rows.filter (fun r => decide (r.K = K))).length = 1
    omega
  · have habs : ∀ r ∈ st.db.rows, r.K ≠ K := fun r hr hrk => hex ⟨r, hr, hrk⟩
    rw [Set_of_absent st K V exp now hK hV habs]
    have hnone : st.db.rows.filter (fun r => decide (r.K = K)) = [] := by
      rw [List.filter_eq_nil_iff]
      intro r hr
      simpa using habs r hr
    simp [List.filter_append, hnone]

/-! ## The primary key is kept by every operation -/

theorem wellFormed_filter (rows : List Session) (p : Session → Bool)
    (h : (rows.map Session.K).Nodup) : ((rows.filter p).map Session.K).Nodup :=
  List.Nodup.sublist (List.Sublist.map Session.K (List.filter_sublist rows)) h

theorem Set_wellFormed (s : Storage) (key val : Bytes) (exp now : Int)
    (h : s.db.WellFormed) : (s.Set key val exp now).1.db.WellFormed := by
  unfold Storage.Set
  split
  · exact h
  · unfold DB.Create
    by_cases hany : s.db.rows.any (fun r => decide (r.K = key)) = true
    · simp only [hany, if_true]
      exact h
    · simp only [hany]
      unfold DB.WellFormed at *
      simp only [Bool.false_eq_true, if_false, List.map_append, List.map_cons, List.map_nil]
      rw [List.nodup_append]
      refine ⟨h, List.nodup_singleton _, ?_⟩
      rw [List.disjoint_singleton]
      intro hmem
      rw [List.mem_map] at hmem
      obtain ⟨r, hr, hrk⟩ := hmem
      apply hany
      rw [List.any_eq_true]
      exact ⟨r, hr, by simpa using hrk⟩

theorem Get_wellFormed (s : Storage) (key : Bytes) (now : Int)
    (h : s.db.WellFormed) : (s.Get key now).1.db.WellFormed := by
  unfold Storage.Get DB.whereKFirst
  split
  · exact h
  · cases s.db.rows.find? (fun r => decide (r.K = key)) with
    | none => simpa [DB.WellFormed] using h
    | some r =>
      simp only
      split <;> exact h

theorem Delete_wellFormed (s : Storage) (key : Bytes)
    (h : s.db.WellFormed) : (s.Delete key).1.db.WellFormed := by
  unfold Storage.Delete
  split
  · exact h
  · exact wellFormed_filter s.db.rows _ h

theorem Reset_wellFormed (s : Storage)
    (h : s.db.WellFormed) : s.Reset.1.db.WellFormed := by
  unfold Storage.Reset DB.Delete
  by_cases ha : s.db.AllowGlobalUpdate = true
  · simp [ha, DB.WellFormed]
  · simpa [ha, DB.WellFormed] using h

theorem gc_wellFormed (s : Storage) (t : Int)
    (h : s.db.WellFormed) : (s.gc t).db.WellFormed :=
  wellFormed_filter s.db.rows _ h

/-- Reset on a handle without `AllowGlobalUpdate`: refused, rows kept. -/
theorem Reset_of_default (s : Storage) (h : s.db.AllowGlobalUpdate = false) :
    s.Reset.2 = some GoError.gormErrMissingWhereClause ∧ s.Reset.1.db.rows = s.db.rows := by
  simp [Storage.Reset, DB.Delete, h]

/-- Reset on a handle with `AllowGlobalUpdate`: no error, no row left. -/
theorem Reset_of_allowGlobalUpdate (s : Storage) (h : s.db.AllowGlobalUpdate = true) :
    s.Reset.2 = none ∧ s.Reset.1.db.rows = [] := by
  simp [Storage.Reset, DB.Delete, h]

/-! ## C1: round trip -/

/-- C1 fails on the code: on the table that holds the single row
`("a", "x", 0)` (keys unique; the state after `Set("a", "x", 0)` on an empty
table), `Set("a", "y", 0)` returns the primary-key rejection instead of no
error and stores nothing, and the `Get("a")` that follows returns `"x"`, not
`"y"`. -/
theorem C1_set_existing_key_rejected :
    (storeOf [{ K := [97], V := [120], E := 0 }]).db.WellFormed ∧
    ((storeOf []).Set [97] [120] 0 0).1.db.rows
      = (storeOf [{ K := [97], V := [120], E := 0 }]).db.rows ∧
    ((storeOf [{ K := [97], V := [120], E := 0 }]).Set [97] [121] 0 0).2
      = some GoError.primaryKeyViolation ∧
    (((storeOf [{ K := [97], V := [120], E := 0 }]).Set [97] [121] 0 0).1.Get [97] 0).2
      = (some [120], none) ∧
    ¬ (((storeOf [{ K := [97], V := [120], E := 0 }]).Set [97] [121] 0 0).2 = none ∧
       (((storeOf [{ K := [97], V := [120], E := 0 }]).Set [97] [121] 0 0).1.Get [97] 0).2
         = (some [121], none)) := by
  decide

/-! ## C2: expiration -/

/-- C2, as stated, fails: on the empty table `Set("a", "x", 500ms)` at clock
reading zero returns no error and stores expiry `0`, the never-expire value;
`Get("a")` ten seconds later returns `"x"`, with no sweep in between and also
after a sweep at five seconds. -/
theorem C2_counterexample :
    ((0 : Int) < 500000000 ∧ (0 : Int) + 500000000 < 10000000000) ∧
    ((storeOf []).Set [97] [120] 500000000 0).2 = none ∧
    ((storeOf []).Set [97] [120] 500000000 0).1.db.rows = [{ K := [97], V := [120], E := 0 }] ∧
    (((storeOf []).Set [97] [120] 500000000 0).1.Get [97] 10000000000).2
      = (some [120], none) ∧
    ((((storeOf []).Set [97] [120] 500000000 0).1.gcTicker [5000000000]).Get [97]
        10000000000).2 = (some [120], none) := by
  decide

/-- C2 (amended): for every store state, non-empty `K` and `V` and `ttl > 0`,
if `Set(K, V, ttl)` is called at time `t0` and returns no error, the Unix
timestamp of `t0 + ttl` is not `0`, and `Get(K)` is called at a time later
than `t0 + ttl`, with any reaper sweeps and no other call in between, then
`Get(K)` returns no value; it returns no error as well whenever the table
still holds a row for `K` at that point, in particular when every sweep in
between woke before the expiry second. -/
theorem C2_expiration (s : Storage) (K V : Bytes) (ttl t0 t1 : Int) (ticks : List Int)
    (hK : K ≠ []) (hV : V ≠ []) (httl : 0 < ttl)
    (hset : (s.Set K V ttl t0).2 = none) (hE : Unix (Add t0 ttl) ≠ 0)
    (hlater : t0 + ttl < t1) :
    (((s.Set K V ttl t0).1.gcTicker ticks).Get K t1).2.1 = none ∧
    ((∃ r ∈ ((s.Set K V ttl t0).1.gcTicker ticks).db.rows, r.K = K) →
      (((s.Set K V ttl t0).1.gcTicker ticks).Get K t1).2 = (none, none)) ∧
    ((∀ w ∈ ticks, Unix w < Unix (Add t0 ttl)) →
      (((s.Set K V ttl t0).1.gcTicker ticks).Get K t1).2 = (none, none)) := by
  have habs : ∀ r ∈ s.db.rows, r.K ≠ K := absent_of_Set_no_error s K V ttl t0 hK hV hset
  have hne : ttl ≠ 0 := by omega
  have hexp : expSeconds ttl t0 = Unix (Add t0 ttl) := by simp [expSeconds, hne]
  have hle : Unix (Add t0 ttl) ≤ Unix t1 := Unix_mono (by unfold Add; omega)
  rw [Set_of_absent s K V ttl t0 hK hV habs]
  generalize hst0 : ({ s with db := { s.db with
      rows := s.db.rows ++ [{ K := K, V := V, E := expSeconds ttl t0 }],
      calls := s.db.calls ++ [Call.create { K := K, V := V, E := expSeconds ttl t0 }] } }
        : Storage) = st0
  have hrows0 : st0.db.rows = s.db.rows ++ [{ K := K, V := V, E := expSeconds ttl t0 }] := by
    rw [← hst0]
  have honly : ∀ r ∈ (st0.gcTicker ticks).db.rows, r.K = K →
      r = { K := K, V := V, E := expSeconds ttl t0 } := by
    intro r hr hrk
    have hr0 : r ∈ st0.db.rows := (gcTicker_sublist st0 ticks).subset hr
    rw [hrows0, List.mem_append] at hr0
    rcases hr0 with hr0 | hr0
    · exact absurd hrk (habs r hr0)
    · simpa using hr0
  have hdead : (Session.mk K V (expSeconds ttl t0)).E ≠ 0 ∧
      (Session.mk K V (expSeconds ttl t0)).E ≤ Unix t1 := by
    show expSeconds ttl t0 ≠ 0 ∧ expSeconds ttl t0 ≤ Unix t1
    rw [hexp]
    exact ⟨hE, hle⟩
  have hget := Get_of_only_expired (st0.gcTicker ticks) K t1 _ hK honly hdead
  refine ⟨hget.1, hget.2, ?_⟩
  intro hbefore
  apply hget.2
  refine ⟨{ K := K, V := V, E := expSeconds ttl t0 }, ?_, rfl⟩
  apply gcTicker_mem_of_alive
  · rw [hrows0]; simp
  · intro w hw hcontra
    have h1 : expSeconds ttl t0 ≤ Unix w := hcontra.2
    have h2 := hbefore w hw
    rw [hexp] at h1
    omega

theorem C2_expiration_witness :
    ((((storeOf []).Set [97] [120] 1000000000 1700000000000000000).1.gcTicker
        [1700000002000000000]).Get [97] 1700000003000000000).2.1 = none :=
  (C2_expiration (storeOf []) [97] [120] 1000000000 1700000000000000000
    1700000003000000000 [1700000002000000000] (by decide) (by decide) (by decide)
    (by decide) (by decide) (by decide)).1

/-! ## C3: absence -/

/-- C3 fails on the code: on the empty table `Get("a")` returns no value
together with the error `gorm.ErrRecordNotFound`, not `(nil, nil)`: the error
reported by `First` is not the `sql.ErrNoRows` that `Get` tests for. -/
theorem C3_get_absent_returns_error :
    (∀ r ∈ (storeOf []).db.rows, r.K ≠ [97]) ∧
    ((storeOf []).Get [97] 1700000000000000000).2
      = (none, some GoError.gormErrRecordNotFound) ∧
    ((storeOf []).Get [97] 1700000000000000000).2 ≠ (none, none) := by
  decide

/-! ## C4: lazy expiration in Get -/

/-- C4: for every store state, time `now` and non-empty key `K` whose lookup
finds `row`, `Get(K)` returns `(row.V, nil)` if and only if `row.E = 0` or
`row.E > now.Unix()`; when `row.E != 0` and `row.E <= now.Unix()` it returns
`(nil, nil)`; and the rows of the table after the call are the rows before it,
so the dead row is not deleted. -/
theorem C4_lazy_expiration (s : Storage) (now : Int) (K : Bytes) (row : Session)
    (hK : K ≠ []) (hrow : (s.db.whereKFirst K).2 = Except.ok row) :
    ((s.Get K now).2 = (some row.V, none) ↔ (row.E = 0 ∨ row.E > Unix now)) ∧
    ((row.E ≠ 0 ∧ row.E ≤ Unix now) →
      (s.Get K now).2 = (none, none) ∧ (s.Get K now).1.db.rows = s.db.rows) ∧
    (s.Get K now).1.db.rows = s.db.rows := by
  rw [Get_of_found s K now row hK (found_of_whereKFirst s.db K row hrow)]
  refine ⟨?_, ?_, rfl⟩
  · by_cases hd : row.E ≠ 0 ∧ row.E ≤ Unix now
    · rw [if_pos hd]
      constructor
      · intro h; simp at h
      · intro h; omega
    · rw [if_neg hd]
      refine ⟨fun _ => ?_, fun _ => rfl⟩
      omega
  · intro hd
    simp [hd]

theorem C4_lazy_expiration_witness :
    (((storeOf [{ K := [97], V := [120], E := 5 }]).Get [97] 7000000000).2
        = (some [120], none) ↔ ((5 : Int) = 0 ∨ (5 : Int) > Unix 7000000000)) ∧
    (((5 : Int) ≠ 0 ∧ (5 : Int) ≤ Unix 7000000000) →
      ((storeOf [{ K := [97], V := [120], E := 5 }]).Get [97] 7000000000).2 = (none, none) ∧
      ((storeOf [{ K := [97], V := [120], E := 5 }]).Get [97] 7000000000).1.db.rows
        = (storeOf [{ K := [97], V := [120], E := 5 }]).db.rows) ∧
    ((storeOf [{ K := [97], V := [120], E := 5 }]).Get [97] 7000000000).1.db.rows
      = (storeOf [{ K := [97], V := [120], E := 5 }]).db.rows :=
  C4_lazy_expiration (storeOf [{ K := [97], V := [120], E := 5 }]) 7000000000 [97]
    { K := [97], V := [120], E := 5 } (by decide) rfl

/-! ## C5: Delete -/

/-- C5: for every store state and every non-empty key `K`, `Delete(K)`
returns no error; afterwards the table holds no row with `k = K`; its rows are
the rows from before with a different key, in their order and unchanged, so a
row with a different key is in the table after exactly when it was before; and
when no row had `k = K` the rows of the table are unchanged. -/
theorem C5_delete (s : Storage) (K : Bytes) (hK : K ≠ []) :
    (s.Delete K).2 = none ∧
    (∀ r ∈ (s.Delete K).1.db.rows, r.K ≠ K) ∧
    (s.Delete K).1.db.rows = s.db.rows.filter (fun r => !decide (r.K = K)) ∧
    (∀ r : Session, r.K ≠ K → (r ∈ (s.Delete K).1.db.rows ↔ r ∈ s.db.rows)) ∧
    ((∀ r ∈ s.db.rows, r.K ≠ K) → (s.Delete K).1.db.rows = s.db.rows) := by
  have hk0 : ¬ K.length ≤ 0 := by rw [length_le_zero_iff]; exact hK
  have hrows : (s.Delete K).1.db.rows = s.db.rows.filter (fun r => !decide (r.K = K)) := by
    simp [Storage.Delete, DB.whereKDelete, hk0]
  refine ⟨?_, ?_, hrows, ?_, ?_⟩
  · simp [Storage.Delete, DB.whereKDelete, hk0]
  · intro r hr
    rw [hrows, List.mem_filter] at hr
    simpa using hr.2
  · intro r hr
    rw [hrows, List.mem_filter]
    simp [hr]
  · intro habs
    rw [hrows, List.filter_eq_self]
    intro r hr
    simpa using habs r hr

theorem C5_delete_witness :
    ((storeOf [{ K := [97], V := [120], E := 0 }, { K := [98], V := [121], E := 7 }]).Delete
      [97]).1.db.rows = [{ K := [98], V := [121], E := 7 }] :=
  (C5_delete (storeOf [{ K := [97], V := [120], E := 0 }, { K := [98], V := [121], E := 7 }])
    [97] (by decide)).2.2.1.trans (by decide)

/-! ## C6: Reset -/

/-- C6 fails on the code: on a handle with the default `AllowGlobalUpdate =
false` and the table holding the single row `("a", "x", 0)`, `Reset()`
returns `gorm.ErrMissingWhereClause`, the row is still in the table and the
`Get("a")` that follows returns `"x"`. -/
theorem C6_reset_refused :
    (storeOf [{ K := [97], V := [120], E := 0 }]).Reset.2
      = some GoError.gormErrMissingWhereClause ∧
    (storeOf [{ K := [97], V := [120], E := 0 }]).Reset.1.db.rows
      = [{ K := [97], V := [120], E := 0 }] ∧
    ((storeOf [{ K := [97], V := [120], E := 0 }]).Reset.1.Get [97] 1700000000000000000).2
      = (some [120], none) := by
  decide

/-! ## C7: reaper sweep -/

/-- C7: for every store state and wake time `t`, the rows after `gc(t)` are
the rows from before without those whose `e` satisfies `e <= t.Unix()` and
`e != 0`, in their order and unchanged; a row is in the table after the sweep
exactly when it was before and does not satisfy that condition; rows with a
nonzero expiry at or before `t.Unix()` are gone, rows with an expiry after
`t.Unix()` remain, and a row with `e = 0` is in the table after any sequence
of sweeps. -/
theorem C7_reaper_sweep (s : Storage) (t : Int) :
    (s.gc t).db.rows
      = s.db.rows.filter (fun r => !(decide (r.E ≤ Unix t) && decide (r.E ≠ 0))) ∧
    (∀ r : Session, r ∈ (s.gc t).db.rows ↔ (r ∈ s.db.rows ∧ ¬ (r.E ≠ 0 ∧ r.E ≤ Unix t))) ∧
    (∀ r ∈ s.db.rows, r.E ≠ 0 → r.E ≤ Unix t → r ∉ (s.gc t).db.rows) ∧
    (∀ r ∈ s.db.rows, Unix t < r.E → r ∈ (s.gc t).db.rows) ∧
    (∀ (ts : List Int), ∀ r ∈ s.db.rows, r.E = 0 →
      r ∈ (ts.foldl Storage.gc s).db.rows) := by
  have hmem : ∀ (u : Storage) (w : Int) (r : Session),
      r ∈ (u.gc w).db.rows ↔ (r ∈ u.db.rows ∧ ¬ (r.E ≠ 0 ∧ r.E ≤ Unix w)) := by
    intro u w r
    simp only [Storage.gc, DB.whereExpiredDelete, List.mem_filter]
    constructor
    · rintro ⟨hr, hc⟩
      refine ⟨hr, ?_⟩
      rintro ⟨h0, hle⟩
      simp [h0, hle] at hc
    · rintro ⟨hr, hc⟩
      refine ⟨hr, ?_⟩
      by_cases h0 : r.E = 0
      · simp [h0]
      · have : ¬ r.E ≤ Unix w := fun hle => hc ⟨h0, hle⟩
        simp [this]
  refine ⟨rfl, hmem s t, ?_, ?_, ?_⟩
  · intro r _ h0 hle hin
    exact ((hmem s t r).1 hin).2 ⟨h0, hle⟩
  · intro r hr hlt
    exact (hmem s t r).2 ⟨hr, fun h => by omega⟩
  · intro ts
    induction ts generalizing s with
    | nil => intro r hr _; exact hr
    | cons w ws ih =>
      intro r hr h0
      rw [List.foldl_cons]
      exact ih (s.gc w) r ((hmem s w r).2 ⟨hr, fun h => h.1 h0⟩) h0

/-! ## C8: empty-input no-ops -/

/-- C8: for every store state, value `V`, key `K`, `ttl` and clock reading,
`Set("", V, ttl)`, `Set(K, empty, ttl)`, `Get("")` and `Delete("")` return no
error (`Get("")` no value either) and leave the whole store state as it was:
the rows of the table and the list of calls made on the handle are the same,
so no call reached the backend. -/
theorem C8_empty_input_noops (s : Storage) (K V : Bytes) (ttl now : Int) :
    s.Set [] V ttl now = (s, none) ∧
    s.Set K [] ttl now = (s, none) ∧
    s.Get [] now = (s, (none, none)) ∧
    s.Delete [] = (s, none) := by
  refine ⟨?_, ?_, ?_, ?_⟩ <;> simp [Storage.Set, Storage.Get, Storage.Delete]

/-! ## C9: expiry computation in Set -/

/-- C9, as stated, fails in its last part: with the clock at
`1700000000` seconds and the (valid, 64-bit) duration
`ttl = -1700000000` seconds, which is not the zero duration, `Set("a", "x", ttl)`
hands the row `("a", "x", 0)` to the backend, the never-expiring form, and the
`Get("a")` at a later time returns `"x"`. -/
theorem C9_counterexample :
    (-(2 : Int) ^ 63 ≤ -1700000000000000000 ∧ (-1700000000000000000 : Int) < 2 ^ 63) ∧
    (-1700000000000000000 : Int) ≠ 0 ∧
    ((storeOf []).Set [97] [120] (-1700000000000000000) 1700000000000000000).1.db.calls
      = [Call.create { K := [97], V := [120], E := 0 }] ∧
    (((storeOf []).Set [97] [120] (-1700000000000000000) 1700000000000000000).1.Get [97]
        1800000000000000000).2 = (some [120], none) ∧
    ¬ (expSeconds (-1700000000000000000) 1700000000000000000 = 0 ↔
        (-1700000000000000000 : Int) = 0) := by
  decide

/-- C9 (amended): for every store state, non-empty key `K`, non-empty value
`V`, duration `ttl` and clock reading `now`, the call that `Set(K, V, ttl)`
makes on the backend is the insert of the row `(K, V, E)` with `E = 0` when
`ttl` is the zero duration and `E` the Unix timestamp in whole seconds of
`now + ttl` otherwise; the row has the never-expiring form `E = 0` exactly when
`ttl = 0` or `now + ttl` lies in the first second of the Unix epoch. -/
theorem C9_expiry_computation (s : Storage) (K V : Bytes) (ttl now : Int)
    (hK : K ≠ []) (hV : V ≠ []) :
    (s.Set K V ttl now).1.db.calls
      = s.db.calls ++ [Call.create { K := K, V := V, E := expSeconds ttl now }] ∧
    (ttl = 0 → expSeconds ttl now = 0) ∧
    (ttl ≠ 0 → expSeconds ttl now = (now + ttl) / 1000000000) ∧
    (expSeconds ttl now = 0 ↔ (ttl = 0 ∨ (0 ≤ now + ttl ∧ now + ttl < 1000000000))) := by
  have hk0 : ¬ K.length ≤ 0 := by rw [length_le_zero_iff]; exact hK
  have hv0 : ¬ V.length ≤ 0 := by rw [length_le_zero_iff]; exact hV
  refine ⟨?_, ?_, ?_, ?_⟩
  · simp only [Storage.Set, DB.Create, hk0, hv0, or_self, if_false]
    split <;> rfl
  · intro h0
    simp [expSeconds, h0]
  · intro hne
    simp [expSeconds, hne, Unix, Add]
  · by_cases h0 : ttl = 0
    · simp [expSeconds, h0]
    · simp only [expSeconds, h0, ne_eq, not_false_eq_true, if_true, Unix, Add, false_or]
      omega

theorem C9_expiry_computation_witness :
    ((storeOf []).Set [97] [120] 1500000000 2000000000).1.db.calls
      = [Call.create { K := [97], V := [120], E := 3 }] :=
  (C9_expiry_computation (storeOf []) [97] [120] 1500000000 2000000000
    (by decide) (by decide)).1.trans (by decide)

/-! ## C10: repeated Set of one key -/

/-- C10, as stated, fails: from the empty table, `Set("a", "x", 0)` returns no
error, the `Set("a", "y", 0)` that follows returns the primary-key rejection,
and the table then holds one row with `k = "a"`, not two. -/
theorem C10_counterexample :
    ((storeOf []).Set [97] [120] 0 0).2 = none ∧
    (((storeOf []).Set [97] [120] 0 0).1.Set [97] [121] 0 1).2
      = some GoError.primaryKeyViolation ∧
    (((storeOf []).Set [97] [120] 0 0).1.Set [97] [121] 0 1).1.db.rows
      = [{ K := [97], V := [120], E := 0 }] ∧
    (((((storeOf []).Set [97] [120] 0 0).1.Set [97] [121] 0 1).1.db.rows.filter
        (fun r => decide (r.K = [97]))).length ≠ 2) := by
  decide

/-- C10 (amended): for every non-empty key `K` and non-empty values `V1`,
`V2`, starting from a table with no row for `K`, `Set(K, V1, ttl1)` returns no
error, and after the `Set(K, V2, ttl2)` that follows, with any reaper sweeps
in between, the table holds exactly one physical row with `k = K`, not two:
`k` is the primary key of the table. -/
theorem C10_one_row_per_key (s : Storage) (K V1 V2 : Bytes) (ttl1 ttl2 t1 t2 : Int)
    (ticks : List Int) (hK : K ≠ []) (hV1 : V1 ≠ []) (hV2 : V2 ≠ [])
    (habs : ∀ r ∈ s.db.rows, r.K ≠ K) :
    (s.Set K V1 ttl1 t1).2 = none ∧
    ((((s.Set K V1 ttl1 t1).1.gcTicker ticks).Set K V2 ttl2 t2).1.db.rows.filter
        (fun r => decide (r.K = K))).length = 1 := by
  rw [Set_of_absent s K V1 ttl1 t1 hK hV1 habs]
  refine ⟨rfl, ?_⟩
  apply Set_one_row_of_le_one _ K V2 ttl2 t2 hK hV2
  have hnone : s.db.rows.filter (fun r => decide (r.K = K)) = [] := by
    rw [List.filter_eq_nil_iff]
    intro r hr
    simpa using habs r hr
  have hsub := List.Sublist.filter (fun r : Session => decide (r.K = K))
    (gcTicker_sublist ({ s with db := { s.db with
      rows := s.db.rows ++ [{ K := K, V := V1, E := expSeconds ttl1 t1 }],
      calls := s.db.calls ++ [Call.create { K := K, V := V1, E := expSeconds ttl1 t1 }] } }
        : Storage) ticks)
  have hlen := hsub.length_le
  simp only [List.filter_append, hnone, List.nil_append] at hlen
  simpa using hlen

theorem C10_one_row_per_key_witness :
    (((((storeOf []).Set [97] [120] 1000000000 3).1.gcTicker [5000000000]).Set [97] [121]
        0 6000000000).1.db.rows.filter (fun r => decide (r.K = [97]))).length = 1 :=
  (C10_one_row_per_key (storeOf []) [97] [120] [121] 1000000000 0 3 6000000000
    [5000000000] (by decide) (by decide) (by decide)
    (by intro r hr; simp [storeOf] at hr)).2

end Gorm
